import Mathlib

/-!
Verification of the bulk-generation orchestrator of vercel-scribe
(`src/App.tsx`, `handleGenerate` bulk branch plus the `worker` closure).

The orchestrator runs on a single-threaded JavaScript event loop: code
between two `await` points executes atomically.  We model it as a
small-step state machine: each worker is a coroutine whose program
counter (`WPhase`) advances by one pipeline stage per scheduler step,
and an arbitrary schedule (`List Event`) interleaves worker steps with
a `cancel` event (the `AbortController.abort()` call of
`handleStopGeneration`).  Provider calls (keyword analysis, link scans,
article generation) are opaque external capabilities; their outcomes
are supplied by a `ProviderEnv`.

Ghost instrumentation (call counters, the list of dequeued topics, the
multiset of abandoned topics) is carried in the state solely to state
theorems; it never influences control flow.

Not modelled: `crypto.randomUUID()` article ids, wall-clock dates
(`new Date().toISOString()`), and the React state setters (the
`completedCount` / `activeTasks` counters are modelled directly, as the
setters only mirror them).
-/

namespace VercelScribe

/-- `AIProvider` enum from `types.ts`. -/
inductive AIProvider
  | gemini
  | deepseek
  deriving DecidableEq, Repr

/-- `SearchProvider` enum from `types.ts` (the revision used by `App.tsx`,
which references `SearchProvider.TAVILY`). -/
inductive SearchProvider
  | gemini
  | serpstack
  | tavily
  deriving DecidableEq, Repr

/-- `InternalLink` from `types.ts` (the optional `snippet` field is dropped:
no orchestrator branch reads it). -/
structure InternalLink where
  title : String
  url : String
  deriving DecidableEq, Repr

/-- `ExternalLink` from `types.ts`. -/
structure ExternalLink where
  title : String
  url : String
  deriving DecidableEq, Repr

/-- The fields of `ArticleConfig` (`types.ts`) read by the bulk branch of
`handleGenerate`.  A JS `string | undefined` field that the code tests for
truthiness (`websiteUrl`) is modelled as a `String` where `""` stands for
absent/empty (both are falsy).  Optional array fields keep their
`Option`: the code reads them with `|| []`. -/
structure ArticleConfig where
  queueTopics : List String
  autoOptimize : Bool
  websiteUrl : String
  deepResearch : Bool
  realTimeData : Bool
  enableExternalLinks : Bool
  provider : AIProvider
  researchProvider : Option SearchProvider
  keywordAnalysisProvider : Option SearchProvider
  primaryKeywords : List String
  nlpKeywords : List String
  internalLinks : Option (List InternalLink)
  externalLinks : Option (List ExternalLink)
  deriving DecidableEq, Repr

/-- A thrown JavaScript error, as far as the orchestrator inspects it:
`err.name` (compared against `'AbortError'`) and `err.message`. -/
structure JsError where
  name : String
  message : String
  deriving DecidableEq, Repr

/-- Outcome of the keyword-analysis stage (two sequential provider calls
inside one `try`): both succeed, the second throws after the first
succeeded, or the first throws. -/
inductive KwOutcome
  | ok (pk npk : List String)
  | firstOnly (pk : List String)
  | threw
  deriving DecidableEq, Repr

/-- Outcome of an internal-link scan (`scanForInternalLinks` /
`scanForInternalLinksTavily`). -/
inductive ScanOutcome
  | ok (links : List InternalLink)
  | threw
  deriving DecidableEq, Repr

/-- Outcome of an external-link scan. -/
inductive ExtScanOutcome
  | ok (links : List ExternalLink)
  | threw
  deriving DecidableEq, Repr

/-- Outcome of `generateWithFallback` for one topic: a resolved
`{content, sources}` or a thrown error. -/
inductive GenResult
  | ok (content : String) (sources : List String)
  | threw (e : JsError)
  deriving DecidableEq, Repr

/-- Result shape of `analyzeBrandWebsite`. -/
structure BrandResearch where
  brandVoice : String
  siteArchitecture : List String
  content : String
  deriving DecidableEq, Repr

/-- Outcome of the brand-research pre-fetch. -/
inductive FetchOutcome
  | ok (br : BrandResearch)
  | threw
  deriving DecidableEq, Repr

/-- The opaque provider environment: outcomes of every external call the
orchestrator can make.  `scan` is keyed by the seed topic it is invoked
with (the batch pre-scan uses the first topic, the per-worker fallback
uses the current topic — same provider function, different seed). -/
structure ProviderEnv where
  tavilyKey : Bool
  brandFetch : FetchOutcome
  kw : String → KwOutcome
  scan : String → ScanOutcome
  extScan : String → ExtScanOutcome
  gen : String → GenResult

/-- `isDeepSeekWebMode` (`App.tsx` line 245): the rate-limit-fragile
combination. -/
def isDeepSeekWebMode (c : ArticleConfig) : Bool :=
  c.provider == AIProvider.deepseek && (c.deepResearch || c.realTimeData)

/-- `CONCURRENCY_LIMIT` (`App.tsx` lines 244-251): 5 by default, forced
to 1 in DeepSeek web mode. -/
def concurrencyLimit (c : ArticleConfig) : Nat :=
  if isDeepSeekWebMode c then 1 else 5

/-- Number of spawned workers: `Math.min(topics.length, CONCURRENCY_LIMIT)`
(`App.tsx` line 434). -/
def numWorkers (c : ArticleConfig) : Nat :=
  min c.queueTopics.length (concurrencyLimit c)

/-- Seed passed to the internal-link pre-scan:
`config.queueTopics?.[0] || 'general'` (`App.tsx` lines 278, 282). -/
def seedTopic (c : ArticleConfig) : String :=
  match c.queueTopics with
  | [] => "general"
  | t :: _ => if t = "" then "general" else t

/-- Condition for the Tavily internal-link scan branch
(`provider === DEEPSEEK && researchProvider === TAVILY`). -/
def usesTavilyScan (c : ArticleConfig) : Bool :=
  c.provider == AIProvider.deepseek &&
    c.researchProvider == some SearchProvider.tavily

/-- Condition for the Gemini internal-link scan branch
(`provider === GEMINI || researchProvider === GEMINI`). -/
def usesGeminiScan (c : ArticleConfig) : Bool :=
  c.provider == AIProvider.gemini ||
    c.researchProvider == some SearchProvider.gemini

/-- Strategy metadata attached to a completed article
(`App.tsx` lines 406-411). -/
structure Strategy where
  primaryKeywords : List String
  nlpKeywords : List String
  internalLinksCount : Nat
  externalLinksCount : Nat
  deriving DecidableEq, Repr

/-- `status` field of a `GeneratedArticle`. -/
inductive ArticleStatus
  | completed
  | failed
  deriving DecidableEq, Repr

/-- A `GeneratedArticle` entry as appended by the worker (the random id
and the wall-clock date are not modelled).  Failed entries carry no
`sources` and no `strategy`, exactly as in the source. -/
structure GeneratedArticle where
  title : String
  content : String
  sources : Option (List String)
  status : ArticleStatus
  strategy : Option Strategy
  deriving DecidableEq, Repr

/-- Program counter of one worker.  Each constructor marks the suspension
point the worker is parked at; the locals accumulated so far
(`topicPrimaryKeywords`, `topicNLPKeywords`, `topicInternalLinks`,
`topicExternalLinks`) ride along. -/
inductive WPhase
  | idle
  | claimed (topic : String)
  | afterKw (topic : String) (pk npk : List String)
  | afterLinks (topic : String) (pk npk : List String) (il : List InternalLink)
  | afterExt (topic : String) (pk npk : List String)
      (il : List InternalLink) (el : List ExternalLink)
  | done
  deriving DecidableEq, Repr

/-- Mutable state of one bulk run.  Fields up to `cachedInternalLinks`
mirror program variables (`queue`, `controller.signal.aborted`, worker
closures, `generatedArticles` appends from this batch, `completedCount`,
`activeTasks`, `cachedBrandResearch`, `cachedInternalLinks`).  The
remaining fields are ghost instrumentation: provider-call counters, the
seeds passed to internal-link scans, the dequeue history `popped`, the
multiset of topics abandoned on `AbortError`, and the multiset of falsy
topics that broke a worker at `if (!topic) break`. -/
structure BatchState where
  queue : List String
  aborted : Bool
  workers : List WPhase
  results : List GeneratedArticle
  completedCount : Nat
  activeTasks : Int
  cachedBrandResearch : Option BrandResearch
  cachedInternalLinks : List InternalLink
  brandFetchCalls : Nat
  linkScanCalls : Nat
  scanSeeds : List String
  keywordCalls : Nat
  extScanCalls : Nat
  popped : List String
  abandoned : Multiset String
  dropped : Multiset String
  deriving DecidableEq

/-- The brand-research pre-fetch (`App.tsx` lines 258-270): only in
DeepSeek deep-research mode with a website configured, and only when a
Tavily key is present; a throw is swallowed and leaves the cache empty. -/
def preFetchBrand (c : ArticleConfig) (env : ProviderEnv) :
    Option BrandResearch × Nat :=
  if c.deepResearch ∧ c.websiteUrl ≠ "" ∧ c.provider = AIProvider.deepseek then
    if env.tavilyKey then
      match env.brandFetch with
      | FetchOutcome.ok br => (some br, 1)
      | FetchOutcome.threw => (none, 1)
    else (none, 0)
  else (none, 0)

/-- The internal-link pre-scan (`App.tsx` lines 272-289): one scan seeded
from the first topic, cached without truncation; a throw is swallowed
and leaves the cache empty.  Returns (cache, call count). -/
def preScanLinks (c : ArticleConfig) (env : ProviderEnv) :
    List InternalLink × Nat :=
  if c.websiteUrl ≠ "" ∧ c.autoOptimize then
    if usesTavilyScan c ∨ usesGeminiScan c then
      match env.scan (seedTopic c) with
      | ScanOutcome.ok links => (links, 1)
      | ScanOutcome.threw => ([], 1)
    else ([], 0)
  else ([], 0)

/-- State right after `handleGenerate` has seeded the queue, run the two
pre-fetches and spawned the worker pool, before any worker has run. -/
def initState (c : ArticleConfig) (env : ProviderEnv) : BatchState :=
  let brand := preFetchBrand c env
  let links := preScanLinks c env
  { queue := c.queueTopics
    aborted := false
    workers := List.replicate (numWorkers c) WPhase.idle
    results := []
    completedCount := 0
    activeTasks := 0
    cachedBrandResearch := brand.1
    cachedInternalLinks := links.1
    brandFetchCalls := brand.2
    linkScanCalls := links.2
    scanSeeds := if links.2 = 1 then [seedTopic c] else []
    keywordCalls := 0
    extScanCalls := 0
    popped := []
    abandoned := 0
    dropped := 0 }

/-- Keyword stage (`App.tsx` lines 319-331): both provider calls live in
one `try`; a throw keeps the defaults already assigned from the config
(a throw on the second call keeps the first call's assignment). -/
def kwStage (c : ArticleConfig) (env : ProviderEnv) (t : String) :
    List String × List String :=
  match env.kw t with
  | KwOutcome.ok pk npk => (pk, npk)
  | KwOutcome.firstOnly pk => (pk, c.nlpKeywords)
  | KwOutcome.threw => (c.primaryKeywords, c.nlpKeywords)

/-- Loop head of the worker (`App.tsx` lines 294-301): the
`while (queue.length > 0 && !aborted)` check, the synchronous
`queue.shift()`, the `if (!topic) break` guard and the `activeTasks`
increment all execute without an intervening suspension point, so they
form one atomic step. -/
def stepIdle (st : BatchState) (w : Nat) : BatchState :=
  match st.queue with
  | [] => { st with workers := st.workers.set w WPhase.done }
  | t :: rest =>
    if st.aborted then { st with workers := st.workers.set w WPhase.done }
    else if t = "" then
      { st with queue := rest
                popped := st.popped ++ [t]
                dropped := t ::ₘ st.dropped
                workers := st.workers.set w WPhase.done }
    else
      { st with queue := rest
                popped := st.popped ++ [t]
                activeTasks := st.activeTasks + 1
                workers := st.workers.set w (WPhase.claimed t) }

/-- Step of a worker parked at `claimed`: runs the keyword stage when
`autoOptimize` is on (`App.tsx` lines 318-331), otherwise the stage is
skipped and the config defaults stand. -/
def stepClaimed (c : ArticleConfig) (env : ProviderEnv) (st : BatchState)
    (w : Nat) (t : String) : BatchState :=
  if c.autoOptimize then
    let r := kwStage c env t
    { st with workers := st.workers.set w (WPhase.afterKw t r.1 r.2)
              keywordCalls := st.keywordCalls + 1 }
  else
    { st with workers :=
        st.workers.set w (WPhase.afterKw t c.primaryKeywords c.nlpKeywords) }

/-- Step of a worker parked at `afterKw`: the internal-link stage
(`App.tsx` lines 333-357).  Cache first; per-topic fallback scan only on
cache miss (a throw keeps `config.internalLinks || []`, the branch where
neither provider condition holds assigns `[]`); the whole stage is
skipped without `autoOptimize` or a configured website. -/
def stepAfterKw (c : ArticleConfig) (env : ProviderEnv) (st : BatchState)
    (w : Nat) (t : String) (pk npk : List String) : BatchState :=
  let dflt := c.internalLinks.getD []
  if c.autoOptimize ∧ c.websiteUrl ≠ "" then
    if st.cachedInternalLinks ≠ [] then
      let ph := WPhase.afterLinks t pk npk (st.cachedInternalLinks.take 3)
      { st with workers := st.workers.set w ph }
    else if usesTavilyScan c ∨ usesGeminiScan c then
      match env.scan t with
      | ScanOutcome.ok links =>
        let ph := WPhase.afterLinks t pk npk (links.take 3)
        { st with workers := st.workers.set w ph
                  linkScanCalls := st.linkScanCalls + 1
                  scanSeeds := st.scanSeeds ++ [t] }
      | ScanOutcome.threw =>
        { st with workers := st.workers.set w (WPhase.afterLinks t pk npk dflt)
                  linkScanCalls := st.linkScanCalls + 1
                  scanSeeds := st.scanSeeds ++ [t] }
    else
      { st with workers := st.workers.set w (WPhase.afterLinks t pk npk []) }
  else
    { st with workers := st.workers.set w (WPhase.afterLinks t pk npk dflt) }

/-- Step of a worker parked at `afterLinks`: the external-link stage
(`App.tsx` lines 359-379), run only with `autoOptimize` and
`enableExternalLinks`; a throw keeps `config.externalLinks || []`.
(The Tavily/Gemini branch choice is abstracted into `env.extScan`:
both branches truncate to 5 and share the same `catch`.) -/
def stepAfterLinks (c : ArticleConfig) (env : ProviderEnv) (st : BatchState)
    (w : Nat) (t : String) (pk npk : List String) (il : List InternalLink) :
    BatchState :=
  let dflt := c.externalLinks.getD []
  if c.autoOptimize ∧ c.enableExternalLinks then
    match env.extScan t with
    | ExtScanOutcome.ok links =>
      let ph := WPhase.afterExt t pk npk il (links.take 5)
      { st with workers := st.workers.set w ph
                extScanCalls := st.extScanCalls + 1 }
    | ExtScanOutcome.threw =>
      { st with workers := st.workers.set w (WPhase.afterExt t pk npk il dflt)
                extScanCalls := st.extScanCalls + 1 }
  else
    { st with workers := st.workers.set w (WPhase.afterExt t pk npk il dflt) }

/-- Step of a worker parked at `afterExt`: `generateWithFallback` resolves
or throws (`App.tsx` lines 397-429).  On success a completed entry is
appended; on `AbortError` the `catch` executes `return` — no entry, but
the `finally` block still runs (JS runs `finally` even on `return`), so
`completedCount` is incremented and `activeTasks` decremented; on any
other error a failed entry is appended whose content wraps the message.
The `finally` accounting closes every branch, then the worker loops
(or exits on abort). -/
def stepAfterExt (env : ProviderEnv) (st : BatchState) (w : Nat) (t : String)
    (pk npk : List String) (il : List InternalLink) (el : List ExternalLink) :
    BatchState :=
  match env.gen t with
  | GenResult.ok content sources =>
    let str : Strategy :=
      { primaryKeywords := pk, nlpKeywords := npk
        internalLinksCount := il.length, externalLinksCount := el.length }
    let entry : GeneratedArticle :=
      { title := t, content := content, sources := some sources
        status := ArticleStatus.completed, strategy := some str }
    { st with results := st.results ++ [entry]
              completedCount := st.completedCount + 1
              activeTasks := st.activeTasks - 1
              workers := st.workers.set w WPhase.idle }
  | GenResult.threw e =>
    if e.name = "AbortError" then
      { st with completedCount := st.completedCount + 1
                activeTasks := st.activeTasks - 1
                workers := st.workers.set w WPhase.done
                abandoned := t ::ₘ st.abandoned }
    else
      let entry : GeneratedArticle :=
        { title := t, content := "Error generating content: " ++ e.message
          sources := none, status := ArticleStatus.failed, strategy := none }
      { st with results := st.results ++ [entry]
                completedCount := st.completedCount + 1
                activeTasks := st.activeTasks - 1
                workers := st.workers.set w WPhase.idle }

/-- Advance worker `w` by one step (no-op for an index outside the pool
or a finished worker). -/
def stepWorker (c : ArticleConfig) (env : ProviderEnv) (st : BatchState)
    (w : Nat) : BatchState :=
  match st.workers.get? w with
  | none => st
  | some WPhase.idle => stepIdle st w
  | some (WPhase.claimed t) => stepClaimed c env st w t
  | some (WPhase.afterKw t pk npk) => stepAfterKw c env st w t pk npk
  | some (WPhase.afterLinks t pk npk il) => stepAfterLinks c env st w t pk npk il
  | some (WPhase.afterExt t pk npk il el) => stepAfterExt env st w t pk npk il el
  | some WPhase.done => st

/-- One scheduler event: either the user cancels
(`handleStopGeneration` → `controller.abort()`), or worker `w` runs to
its next suspension point. -/
inductive Event
  | cancel
  | step (w : Nat)
  deriving DecidableEq, Repr

/-- Apply one event. -/
def applyEvent (c : ArticleConfig) (env : ProviderEnv) (st : BatchState) :
    Event → BatchState
  | Event.cancel => { st with aborted := true }
  | Event.step w => stepWorker c env st w

/-- Run a schedule from a state. -/
def runFrom (c : ArticleConfig) (env : ProviderEnv) (st : BatchState)
    (sched : List Event) : BatchState :=
  sched.foldl (applyEvent c env) st

/-- A full bulk run under a schedule. -/
def bulkRun (c : ArticleConfig) (env : ProviderEnv) (sched : List Event) :
    BatchState :=
  runFrom c env (initState c env) sched

/-- `runBatch`: the bulk branch of `handleGenerate`.  An empty topic list
throws (`App.tsx` line 238) before any worker is spawned; otherwise the
run proceeds under the given schedule. -/
def runBatch (c : ArticleConfig) (env : ProviderEnv) (sched : List Event) :
    Except String BatchState :=
  if c.queueTopics.length = 0 then
    Except.error "No topics provided for bulk generation"
  else
    Except.ok (bulkRun c env sched)

/-- All workers have exited their loops. -/
def finished (st : BatchState) : Prop :=
  ∀ ph ∈ st.workers, ph = WPhase.done

instance : DecidablePred finished := fun st =>
  List.decidableBAll (fun ph => ph = WPhase.done) st.workers

/-- The topic a worker currently holds, as a multiset. -/
def heldOf : WPhase → Multiset String
  | WPhase.idle => 0
  | WPhase.claimed t => {t}
  | WPhase.afterKw t _ _ => {t}
  | WPhase.afterLinks t _ _ _ => {t}
  | WPhase.afterExt t _ _ _ _ => {t}
  | WPhase.done => 0

/-- Multiset of topics currently held by the pool. -/
def held : List WPhase → Multiset String
  | [] => 0
  | ph :: ws => heldOf ph + held ws

/-- Multiset of titles of the emitted results. -/
def resultTitles (st : BatchState) : Multiset String :=
  ↑(st.results.map GeneratedArticle.title)

/-- `env.gen t` throws an `AbortError` (the rejection produced by an
aborted fetch). -/
def isAbortGen : GenResult → Prop
  | GenResult.ok _ _ => False
  | GenResult.threw e => e.name = "AbortError"

instance : DecidablePred isAbortGen := by
  intro r
  cases r with
  | ok c s => exact isFalse (fun h => h)
  | threw e => exact (inferInstance : Decidable (e.name = "AbortError"))

/-- No generation outcome in the environment is an abort — the shape of
an environment for a run in which the token is never triggered. -/
def NoAbort (env : ProviderEnv) : Prop :=
  ∀ t, ¬ isAbortGen (env.gen t)

/-- Provenance of one emitted entry: it reflects the generation outcome
for its topic — completed with the resolved content and sources, or
failed (never from an `AbortError`) with the wrapped error message. -/
def ProvOk (env : ProviderEnv) (r : GeneratedArticle) : Prop :=
  match env.gen r.title with
  | GenResult.ok content sources =>
      r.status = ArticleStatus.completed ∧ r.content = content ∧
        r.sources = some sources
  | GenResult.threw e =>
      e.name ≠ "AbortError" ∧ r.status = ArticleStatus.failed ∧
        r.content = "Error generating content: " ++ e.message

/-- The link-list carried by a mid-pipeline phase equals the 3-link
truncation of the (nonempty) cache. -/
def ilOfOk (cache : List InternalLink) : WPhase → Prop
  | WPhase.afterLinks _ _ _ il => il = cache.take 3
  | WPhase.afterExt _ _ _ il _ => il = cache.take 3
  | _ => True

/-- The run invariant.  `c` and `env` are the fixed parameters of the
batch; the pieces tie the ghost bookkeeping to the program state. -/
structure Inv (c : ArticleConfig) (env : ProviderEnv) (st : BatchState) :
    Prop where
  wlen : st.workers.length = numWorkers c
  cachedEq : st.cachedInternalLinks = (preScanLinks c env).1
  brandEq : st.brandFetchCalls = (preFetchBrand c env).2
  pq : st.popped ++ st.queue = c.queueTopics
  acc : resultTitles st + held st.workers + st.abandoned + st.dropped =
      ↑st.popped
  comp : st.completedCount = st.results.length + Multiset.card st.abandoned
  act : st.activeTasks = (Multiset.card (held st.workers) : Int)
  prov : ∀ r ∈ st.results, ProvOk env r
  abandonedOk : ∀ t ∈ st.abandoned, isAbortGen (env.gen t)
  droppedOk : ∀ t ∈ st.dropped, t = ""
  doneQ : st.aborted = false → "" ∉ c.queueTopics → NoAbort env →
      WPhase.done ∈ st.workers → st.queue = []
  scansOnce : st.cachedInternalLinks ≠ [] →
      st.linkScanCalls = 1 ∧ st.scanSeeds = [seedTopic c]
  phaseIl : st.cachedInternalLinks ≠ [] →
      ∀ ph ∈ st.workers, ilOfOk st.cachedInternalLinks ph
  resIl : st.cachedInternalLinks ≠ [] → ∀ r ∈ st.results,
      ∀ s, r.strategy = some s →
        s.internalLinksCount = (st.cachedInternalLinks.take 3).length

/-- Concrete 3-topic Gemini bulk config used in witness runs. -/
def cfgA : ArticleConfig :=
  { queueTopics := ["A", "B", "C"]
    autoOptimize := true
    websiteUrl := "https://example.com"
    deepResearch := false
    realTimeData := false
    enableExternalLinks := false
    provider := AIProvider.gemini
    researchProvider := none
    keywordAnalysisProvider := none
    primaryKeywords := ["p"]
    nlpKeywords := ["n"]
    internalLinks := none
    externalLinks := none }

/-- Provider environment in which every call succeeds. -/
def okEnv : ProviderEnv :=
  { tavilyKey := true
    brandFetch := FetchOutcome.ok
      { brandVoice := "v", siteArchitecture := [], content := "c" }
    kw := fun _ => KwOutcome.ok ["k1"] ["k2"]
    scan := fun _ => ScanOutcome.ok [{ title := "L", url := "u" }]
    extScan := fun _ => ExtScanOutcome.ok []
    gen := fun t => GenResult.ok (t ++ " article") [] }

/-- Schedule that drives worker 0 through all three topics and then lets
workers 1 and 2 observe the empty queue. -/
def schedFull : List Event :=
  List.replicate 16 (Event.step 0) ++ [Event.step 1, Event.step 2]

/-- Environment whose generation call for topic `B` rejects with an
`AbortError` (the rejection an aborted fetch produces). -/
def abortEnvB : ProviderEnv :=
  { okEnv with gen := fun t =>
      if t = "B"
      then GenResult.threw { name := "AbortError", message := "Aborted" }
      else GenResult.ok (t ++ " article") [] }

/-- Schedule: worker 0 completes topic `A`, claims `B` and runs its
pipeline up to the generation call; the user cancels; the in-flight
generation then rejects. -/
def schedAbort : List Event :=
  List.replicate 9 (Event.step 0) ++ [Event.cancel, Event.step 0]

/-- Environment whose generation call for topic `B` throws an ordinary
provider error with message `boom`. -/
def errEnvB : ProviderEnv :=
  { okEnv with gen := fun t =>
      if t = "B" then GenResult.threw { name := "Error", message := "boom" }
      else GenResult.ok (t ++ " article") [] }

/-- Environment in which every internal-link scan throws. -/
def scanFailEnv : ProviderEnv :=
  { okEnv with scan := fun _ => ScanOutcome.threw }

/-- `cfgA` with one preconfigured internal link. -/
def cfgIL : ArticleConfig :=
  { cfgA with internalLinks := some [{ title := "pre", url := "u0" }] }

/-- The four-link list returned by `scan4Env`. -/
def fourLinks : List InternalLink :=
  [{ title := "L1", url := "u1" }, { title := "L2", url := "u2" },
   { title := "L3", url := "u3" }, { title := "L4", url := "u4" }]

/-- Environment whose internal-link scan returns four links. -/
def scan4Env : ProviderEnv :=
  { okEnv with scan := fun _ => ScanOutcome.ok fourLinks }

/-- `cfgA` switched to DeepSeek with deep research: the rate-limit-fragile
combination. -/
def cfgDSW : ArticleConfig :=
  { cfgA with provider := AIProvider.deepseek, deepResearch := true
              researchProvider := some SearchProvider.tavily }

/-- State with one worker re-parked (used to state the link-stage policy). -/
def rePark (st : BatchState) (w : Nat) (ph : WPhase) : BatchState :=
  { st with workers := st.workers.set w ph }

/-- State after a worker's fallback link scan failed: the worker proceeds
to the external-link stage carrying the preconfigured links and the scan
instrumentation advanced. -/
def reParkScanFail (c : ArticleConfig) (st : BatchState) (w : Nat)
    (t : String) (pk npk : List String) : BatchState :=
  { st with
    workers := st.workers.set w
      (WPhase.afterLinks t pk npk (c.internalLinks.getD []))
    linkScanCalls := st.linkScanCalls + 1
    scanSeeds := st.scanSeeds ++ [t] }

theorem held_replicate_idle (n : Nat) :
    held (List.replicate n WPhase.idle) = 0 := by
  induction n with
  | zero => rfl
  | succ m ih => simp [List.replicate, held, ih, heldOf]

theorem held_set (ws : List WPhase) (i : Nat) (ph v : WPhase)
    (h : ws.get? i = some ph) :
    held (ws.set i v) + heldOf ph = held ws + heldOf v := by
  induction ws generalizing i with
  | nil => simp at h
  | cons a tl ih =>
    cases i with
    | zero =>
      simp only [List.get?] at h
      cases h
      simp only [List.set, held]
      abel
    | succ n =>
      simp only [List.get?] at h
      simp only [List.set, held]
      rw [add_assoc, ih n h, ← add_assoc]

theorem mem_of_mem_set {ws : List WPhase} {i : Nat} {v x : WPhase}
    (h : x ∈ ws.set i v) : x = v ∨ x ∈ ws := by
  induction ws generalizing i with
  | nil => simp at h
  | cons a tl ih =>
    cases i with
    | zero =>
      simp only [List.set, List.mem_cons] at h
      rcases h with h | h
      · exact Or.inl h
      · exact Or.inr (List.mem_cons_of_mem _ h)
    | succ n =>
      simp only [List.set, List.mem_cons] at h
      rcases h with h | h
      · exact Or.inr (h ▸ List.mem_cons_self _ _)
      · rcases ih h with h' | h'
        · exact Or.inl h'
        · exact Or.inr (List.mem_cons_of_mem _ h')

theorem get?_mem_phases {ws : List WPhase} {i : Nat} {ph : WPhase}
    (h : ws.get? i = some ph) : ph ∈ ws := by
  induction ws generalizing i with
  | nil => simp at h
  | cons a tl ih =>
    cases i with
    | zero =>
      simp only [List.get?] at h
      cases h
      exact List.mem_cons_self _ _
    | succ n =>
      simp only [List.get?] at h
      exact List.mem_cons_of_mem _ (ih h)

/-- A nonempty link cache can only come from a successful pre-scan, which
counted exactly one call. -/
theorem preScan_pos (c : ArticleConfig) (env : ProviderEnv)
    (h : (preScanLinks c env).1 ≠ []) : (preScanLinks c env).2 = 1 := by
  unfold preScanLinks at *
  by_cases hw : c.websiteUrl ≠ "" ∧ c.autoOptimize
  · by_cases hp : usesTavilyScan c = true ∨ usesGeminiScan c = true
    · cases hs : env.scan (seedTopic c) <;> simp [hw, hp, hs]
    · simp [hw, hp] at h
  · simp [hw] at h

theorem inv_init (c : ArticleConfig) (env : ProviderEnv) :
    Inv c env (initState c env) := by
  refine ⟨?_, rfl, rfl, ?_, ?_, rfl, ?_, ?_, ?_, ?_, ?_, ?_, ?_, ?_⟩
  · simp [initState, List.length_replicate]
  · simp [initState]
  · simp [initState, resultTitles, held_replicate_idle]
  · simp [initState, held_replicate_idle]
  · intro r hr; simp [initState] at hr
  · intro t ht; simp [initState] at ht
  · intro t ht; simp [initState] at ht
  · intro _ _ _ hmem
    simp only [initState] at hmem
    exact absurd (List.eq_of_mem_replicate hmem) (by simp)
  · intro h
    simp only [initState] at h ⊢
    have h2 := preScan_pos c env h
    simp [h2]
  · intro _ ph hmem
    simp only [initState] at hmem
    rw [List.eq_of_mem_replicate hmem]
    trivial
  · intro _ r hr
    simp [initState] at hr

/-- Invariant preservation template for the mid-pipeline steps that only
re-park the worker holding topic `t` (claimed → afterKw → afterLinks →
afterExt) and bump ghost counters the invariant does not constrain (the
link-scan instrumentation may change only while the cache is empty). -/
theorem inv_update (c : ArticleConfig) (env : ProviderEnv) {st : BatchState}
    (inv : Inv c env st) (w : Nat) (ph v : WPhase)
    (hget : st.workers.get? w = some ph) (hheld : heldOf v = heldOf ph)
    (hv : v ≠ WPhase.done)
    (hil : st.cachedInternalLinks ≠ [] → ilOfOk st.cachedInternalLinks v)
    (kc ec lsc : Nat) (sseeds : List String)
    (hfroz : st.cachedInternalLinks ≠ [] →
        lsc = st.linkScanCalls ∧ sseeds = st.scanSeeds) :
    Inv c env { st with workers := st.workers.set w v, keywordCalls := kc
                        extScanCalls := ec, linkScanCalls := lsc
                        scanSeeds := sseeds } := by
  have hsame : held (st.workers.set w v) = held st.workers := by
    have h := held_set st.workers w ph v hget
    rw [hheld] at h
    exact add_right_cancel h
  refine ⟨?_, inv.cachedEq, inv.brandEq, inv.pq, ?_, inv.comp, ?_, inv.prov,
    inv.abandonedOk, inv.droppedOk, ?_, ?_, ?_, ?_⟩
  · simpa [List.length_set] using inv.wlen
  · show resultTitles st + held (st.workers.set w v) + st.abandoned +
        st.dropped = ↑st.popped
    rw [hsame]
    exact inv.acc
  · show st.activeTasks = (Multiset.card (held (st.workers.set w v)) : Int)
    rw [hsame]
    exact inv.act
  · intro h1 h2 h3 hmem
    rcases mem_of_mem_set hmem with h | h
    · exact absurd h.symm hv
    · exact inv.doneQ h1 h2 h3 h
  · intro h
    obtain ⟨a, b⟩ := hfroz h
    rw [a, b]
    exact inv.scansOnce h
  · intro h ph' hmem
    rcases mem_of_mem_set hmem with h' | h'
    · rw [h']
      exact hil h
    · exact inv.phaseIl h ph' h'
  · exact inv.resIl

theorem held_set_eq {ws : List WPhase} {i : Nat} {ph v : WPhase}
    (hget : ws.get? i = some ph) (hheld : heldOf v = heldOf ph) :
    held (ws.set i v) = held ws := by
  have h := held_set ws i ph v hget
  rw [hheld] at h
  exact add_right_cancel h

theorem coe_snoc {α : Type} (l : List α) (a : α) :
    ((l ++ [a] : List α) : Multiset α) = ↑l + {a} := by
  rw [← Multiset.coe_singleton, ← Multiset.coe_add]

/-- Preservation through the worker loop head (`stepIdle`). -/
theorem inv_stepIdle (c : ArticleConfig) (env : ProviderEnv) {st : BatchState}
    (inv : Inv c env st) (w : Nat)
    (hget : st.workers.get? w = some WPhase.idle) :
    Inv c env (stepIdle st w) := by
  have hsame : held (st.workers.set w WPhase.done) = held st.workers :=
    held_set_eq hget rfl
  cases hq : st.queue with
  | nil =>
    simp only [stepIdle, hq]
    refine ⟨?_, inv.cachedEq, inv.brandEq, ?_, ?_, inv.comp, ?_, inv.prov,
      inv.abandonedOk, inv.droppedOk, ?_, inv.scansOnce, ?_, inv.resIl⟩
    · simpa [List.length_set] using inv.wlen
    · show st.popped ++ [] = c.queueTopics
      rw [← hq]
      exact inv.pq
    · show resultTitles st + held (st.workers.set w WPhase.done) +
          st.abandoned + st.dropped = ↑st.popped
      rw [hsame]
      exact inv.acc
    · show st.activeTasks =
          (Multiset.card (held (st.workers.set w WPhase.done)) : Int)
      rw [hsame]
      exact inv.act
    · intro _ _ _ _
      rfl
    · intro h ph' hmem
      rcases mem_of_mem_set hmem with h' | h'
      · rw [h']
        trivial
      · exact inv.phaseIl h ph' h'
  | cons t rest =>
    simp only [stepIdle, hq]
    by_cases habort : st.aborted = true
    · rw [if_pos habort]
      refine ⟨?_, inv.cachedEq, inv.brandEq, ?_, ?_, inv.comp, ?_, inv.prov,
        inv.abandonedOk, inv.droppedOk, ?_, inv.scansOnce, ?_, inv.resIl⟩
      · simpa [List.length_set] using inv.wlen
      · show st.popped ++ (t :: rest) = c.queueTopics
        rw [← hq]
        exact inv.pq
      · show resultTitles st + held (st.workers.set w WPhase.done) +
            st.abandoned + st.dropped = ↑st.popped
        rw [hsame]
        exact inv.acc
      · show st.activeTasks =
            (Multiset.card (held (st.workers.set w WPhase.done)) : Int)
        rw [hsame]
        exact inv.act
      · intro h1 _ _ _
        simp [habort] at h1
      · intro h ph' hmem
        rcases mem_of_mem_set hmem with h' | h'
        · rw [h']
          trivial
        · exact inv.phaseIl h ph' h'
    · rw [if_neg habort]
      by_cases hte : t = ""
      · rw [if_pos hte]
        refine ⟨?_, inv.cachedEq, inv.brandEq, ?_, ?_, inv.comp, ?_, inv.prov,
          inv.abandonedOk, ?_, ?_, inv.scansOnce, ?_, inv.resIl⟩
        · simpa [List.length_set] using inv.wlen
        · show st.popped ++ [t] ++ rest = c.queueTopics
          rw [List.append_assoc, List.singleton_append, ← hq]
          exact inv.pq
        · show resultTitles st + held (st.workers.set w WPhase.done) +
              st.abandoned + (t ::ₘ st.dropped) =
              ↑(st.popped ++ [t])
          rw [hsame, coe_snoc, ← Multiset.singleton_add, ← inv.acc]
          abel
        · show st.activeTasks =
              (Multiset.card (held (st.workers.set w WPhase.done)) : Int)
          rw [hsame]
          exact inv.act
        · intro x hx
          rcases Multiset.mem_cons.mp hx with h' | h'
          · rw [h', hte]
          · exact inv.droppedOk x h'
        · intro _ h2 _ _
          have hmem : ("" : String) ∈ c.queueTopics := by
            rw [← inv.pq, hq, ← hte]
            exact List.mem_append_right _ (List.mem_cons_self t rest)
          exact absurd hmem h2
        · intro h ph' hmem
          rcases mem_of_mem_set hmem with h' | h'
          · rw [h']
            trivial
          · exact inv.phaseIl h ph' h'
      · rw [if_neg hte]
        have hclaim : held (st.workers.set w (WPhase.claimed t)) =
            held st.workers + {t} := by
          have h := held_set st.workers w WPhase.idle (WPhase.claimed t) hget
          simpa [heldOf] using h
        refine ⟨?_, inv.cachedEq, inv.brandEq, ?_, ?_, inv.comp, ?_, inv.prov,
          inv.abandonedOk, inv.droppedOk, ?_, inv.scansOnce, ?_, inv.resIl⟩
        · simpa [List.length_set] using inv.wlen
        · show st.popped ++ [t] ++ rest = c.queueTopics
          rw [List.append_assoc, List.singleton_append, ← hq]
          exact inv.pq
        · show resultTitles st + held (st.workers.set w (WPhase.claimed t)) +
              st.abandoned + st.dropped = ↑(st.popped ++ [t])
          rw [hclaim, coe_snoc, ← inv.acc]
          abel
        · show st.activeTasks + 1 =
              (Multiset.card (held (st.workers.set w (WPhase.claimed t))) : Int)
          rw [hclaim]
          simp only [Multiset.card_add, Multiset.card_singleton]
          rw [inv.act]
          omega
        · intro h1 h2 h3 hmem
          rcases mem_of_mem_set hmem with h' | h'
          · exact absurd h'.symm (by simp)
          · exact absurd (inv.doneQ h1 h2 h3 h') (by simp [hq])
        · intro h ph' hmem
          rcases mem_of_mem_set hmem with h' | h'
          · rw [h']
            trivial
          · exact inv.phaseIl h ph' h'

/-- A nonempty link cache implies the pre-scan guard held. -/
theorem preScan_guard (c : ArticleConfig) (env : ProviderEnv)
    (h : (preScanLinks c env).1 ≠ []) :
    c.websiteUrl ≠ "" ∧ c.autoOptimize = true := by
  unfold preScanLinks at h
  by_cases hw : c.websiteUrl ≠ "" ∧ c.autoOptimize
  · exact hw
  · simp [hw] at h

/-- Preservation through the generation/report step (`stepAfterExt`). -/
theorem inv_stepAfterExt (c : ArticleConfig) (env : ProviderEnv)
    {st : BatchState} (inv : Inv c env st) (w : Nat) (t : String)
    (pk npk : List String) (il : List InternalLink) (el : List ExternalLink)
    (hget : st.workers.get? w = some (WPhase.afterExt t pk npk il el)) :
    Inv c env (stepAfterExt env st w t pk npk il el) := by
  have hheld : held (st.workers.set w WPhase.idle) + {t} = held st.workers := by
    have h := held_set st.workers w (WPhase.afterExt t pk npk il el)
      WPhase.idle hget
    simpa [heldOf] using h
  have hheldD : held (st.workers.set w WPhase.done) + {t} = held st.workers := by
    have h := held_set st.workers w (WPhase.afterExt t pk npk il el)
      WPhase.done hget
    simpa [heldOf] using h
  have hphil : st.cachedInternalLinks ≠ [] →
      il = st.cachedInternalLinks.take 3 := fun h =>
    inv.phaseIl h _ (get?_mem_phases hget)
  cases hgen : env.gen t with
  | ok content sources =>
    simp only [stepAfterExt, hgen]
    refine ⟨?_, inv.cachedEq, inv.brandEq, inv.pq, ?_, ?_, ?_, ?_,
      inv.abandonedOk, inv.droppedOk, ?_, inv.scansOnce, ?_, ?_⟩
    · simpa [List.length_set] using inv.wlen
    · simp only [resultTitles, List.map_append, List.map_cons, List.map_nil,
        coe_snoc]
      rw [← inv.acc, ← hheld]
      simp only [resultTitles]
      abel
    · simp only [List.length_append, List.length_singleton]
      have := inv.comp
      omega
    · show st.activeTasks - 1 =
          (Multiset.card (held (st.workers.set w WPhase.idle)) : Int)
      have hc : Multiset.card (held (st.workers.set w WPhase.idle)) + 1 =
          Multiset.card (held st.workers) := by
        rw [← hheld]
        simp [Multiset.card_add]
      have := inv.act
      omega
    · intro r hr
      rcases List.mem_append.mp hr with h | h
      · exact inv.prov r h
      · have hr' : r = _ := List.mem_singleton.mp h
        rw [hr']
        show ProvOk env _
        simp [ProvOk, hgen]
    · intro h1 h2 h3 hmem
      rcases mem_of_mem_set hmem with h' | h'
      · exact absurd h'.symm (by simp)
      · exact inv.doneQ h1 h2 h3 h'
    · intro h ph' hmem
      rcases mem_of_mem_set hmem with h' | h'
      · rw [h']
        trivial
      · exact inv.phaseIl h ph' h'
    · intro h r hr s hs
      rcases List.mem_append.mp hr with h' | h'
      · exact inv.resIl h r h' s hs
      · have hr' : r = _ := List.mem_singleton.mp h'
        rw [hr'] at hs
        simp only at hs
        injection hs with hs'
        rw [← hs']
        show il.length = (st.cachedInternalLinks.take 3).length
        rw [hphil h]
  | threw e =>
    simp only [stepAfterExt, hgen]
    by_cases he : e.name = "AbortError"
    · rw [if_pos he]
      refine ⟨?_, inv.cachedEq, inv.brandEq, inv.pq, ?_, ?_, ?_, inv.prov,
        ?_, inv.droppedOk, ?_, inv.scansOnce, ?_, inv.resIl⟩
      · simpa [List.length_set] using inv.wlen
      · show resultTitles st + held (st.workers.set w WPhase.done) +
            (t ::ₘ st.abandoned) + st.dropped = ↑st.popped
        rw [← Multiset.singleton_add, ← inv.acc, ← hheldD]
        abel
      · show st.completedCount + 1 = st.results.length +
            Multiset.card (t ::ₘ st.abandoned)
        rw [Multiset.card_cons]
        have := inv.comp
        omega
      · show st.activeTasks - 1 =
            (Multiset.card (held (st.workers.set w WPhase.done)) : Int)
        have hc : Multiset.card (held (st.workers.set w WPhase.done)) + 1 =
            Multiset.card (held st.workers) := by
          rw [← hheldD]
          simp [Multiset.card_add]
        have := inv.act
        omega
      · intro x hx
        rcases Multiset.mem_cons.mp hx with h' | h'
        · rw [h']
          show isAbortGen (env.gen t)
          rw [hgen]
          exact he
        · exact inv.abandonedOk x h'
      · intro _ _ h3 _
        have : isAbortGen (env.gen t) := by
          rw [hgen]
          exact he
        exact absurd this (h3 t)
      · intro h ph' hmem
        rcases mem_of_mem_set hmem with h' | h'
        · rw [h']
          trivial
        · exact inv.phaseIl h ph' h'
    · rw [if_neg he]
      refine ⟨?_, inv.cachedEq, inv.brandEq, inv.pq, ?_, ?_, ?_, ?_,
        inv.abandonedOk, inv.droppedOk, ?_, inv.scansOnce, ?_, ?_⟩
      · simpa [List.length_set] using inv.wlen
      · simp only [resultTitles, List.map_append, List.map_cons, List.map_nil,
          coe_snoc]
        rw [← inv.acc, ← hheld]
        simp only [resultTitles]
        abel
      · simp only [List.length_append, List.length_singleton]
        have := inv.comp
        omega
      · show st.activeTasks - 1 =
            (Multiset.card (held (st.workers.set w WPhase.idle)) : Int)
        have hc : Multiset.card (held (st.workers.set w WPhase.idle)) + 1 =
            Multiset.card (held st.workers) := by
          rw [← hheld]
          simp [Multiset.card_add]
        have := inv.act
        omega
      · intro r hr
        rcases List.mem_append.mp hr with h | h
        · exact inv.prov r h
        · have hr' : r = _ := List.mem_singleton.mp h
          rw [hr']
          show ProvOk env _
          simp [ProvOk, hgen, he]
      · intro h1 h2 h3 hmem
        rcases mem_of_mem_set hmem with h' | h'
        · exact absurd h'.symm (by simp)
        · exact inv.doneQ h1 h2 h3 h'
      · intro h ph' hmem
        rcases mem_of_mem_set hmem with h' | h'
        · rw [h']
          trivial
        · exact inv.phaseIl h ph' h'
      · intro h r hr s hs
        rcases List.mem_append.mp hr with h' | h'
        · exact inv.resIl h r h' s hs
        · have hr' : r = _ := List.mem_singleton.mp h'
          rw [hr'] at hs
          simp at hs

/-- The invariant is preserved by every scheduler event. -/
theorem inv_step (c : ArticleConfig) (env : ProviderEnv) {st : BatchState}
    (inv : Inv c env st) (e : Event) : Inv c env (applyEvent c env st e) := by
  cases e with
  | cancel =>
    refine ⟨inv.wlen, inv.cachedEq, inv.brandEq, inv.pq, inv.acc, inv.comp,
      inv.act, inv.prov, inv.abandonedOk, inv.droppedOk, ?_, inv.scansOnce,
      inv.phaseIl, inv.resIl⟩
    intro h1 _ _ _
    simp [applyEvent] at h1
  | step w =>
    show Inv c env (stepWorker c env st w)
    cases hget : st.workers.get? w with
    | none =>
      simpa only [stepWorker, hget] using inv
    | some ph =>
      cases ph with
      | idle =>
        simp only [stepWorker, hget]
        exact inv_stepIdle c env inv w hget
      | claimed t =>
        simp only [stepWorker, hget, stepClaimed]
        by_cases hao : c.autoOptimize = true
        · rw [if_pos hao]
          exact inv_update c env inv w (WPhase.claimed t)
            (WPhase.afterKw t (kwStage c env t).1 (kwStage c env t).2) hget rfl
            (by simp) (fun _ => trivial) (st.keywordCalls + 1) st.extScanCalls
            st.linkScanCalls st.scanSeeds (fun _ => ⟨rfl, rfl⟩)
        · rw [if_neg hao]
          exact inv_update c env inv w (WPhase.claimed t)
            (WPhase.afterKw t c.primaryKeywords c.nlpKeywords) hget rfl
            (by simp) (fun _ => trivial) st.keywordCalls st.extScanCalls
            st.linkScanCalls st.scanSeeds (fun _ => ⟨rfl, rfl⟩)
      | afterKw t pk npk =>
        simp only [stepWorker, hget, stepAfterKw]
        by_cases hg : c.autoOptimize = true ∧ c.websiteUrl ≠ ""
        · rw [if_pos hg]
          by_cases hc : st.cachedInternalLinks ≠ []
          · rw [if_pos hc]
            exact inv_update c env inv w (WPhase.afterKw t pk npk)
              (WPhase.afterLinks t pk npk (st.cachedInternalLinks.take 3))
              hget rfl (by simp) (fun _ => rfl) st.keywordCalls st.extScanCalls
              st.linkScanCalls st.scanSeeds (fun _ => ⟨rfl, rfl⟩)
          · rw [if_neg hc]
            by_cases hp : usesTavilyScan c = true ∨ usesGeminiScan c = true
            · rw [if_pos hp]
              cases hs : env.scan t with
              | ok links =>
                exact inv_update c env inv w (WPhase.afterKw t pk npk)
                  (WPhase.afterLinks t pk npk (links.take 3)) hget rfl
                  (by simp) (fun h => absurd h hc) st.keywordCalls
                  st.extScanCalls (st.linkScanCalls + 1) (st.scanSeeds ++ [t])
                  (fun h => absurd h hc)
              | threw =>
                exact inv_update c env inv w (WPhase.afterKw t pk npk)
                  (WPhase.afterLinks t pk npk (c.internalLinks.getD [])) hget
                  rfl (by simp) (fun h => absurd h hc) st.keywordCalls
                  st.extScanCalls (st.linkScanCalls + 1) (st.scanSeeds ++ [t])
                  (fun h => absurd h hc)
            · rw [if_neg hp]
              exact inv_update c env inv w (WPhase.afterKw t pk npk)
                (WPhase.afterLinks t pk npk []) hget rfl (by simp)
                (fun h => absurd h hc) st.keywordCalls st.extScanCalls
                st.linkScanCalls st.scanSeeds (fun _ => ⟨rfl, rfl⟩)
        · rw [if_neg hg]
          refine inv_update c env inv w (WPhase.afterKw t pk npk)
            (WPhase.afterLinks t pk npk (c.internalLinks.getD [])) hget rfl
            (by simp) ?_ st.keywordCalls st.extScanCalls st.linkScanCalls
            st.scanSeeds (fun _ => ⟨rfl, rfl⟩)
          intro h
          rw [inv.cachedEq] at h
          have hgd := preScan_guard c env h
          exact absurd ⟨hgd.2, hgd.1⟩ hg
      | afterLinks t pk npk il =>
        simp only [stepWorker, hget, stepAfterLinks]
        have hil : st.cachedInternalLinks ≠ [] →
            il = st.cachedInternalLinks.take 3 := fun h =>
          inv.phaseIl h _ (get?_mem_phases hget)
        by_cases hg : c.autoOptimize = true ∧ c.enableExternalLinks = true
        · rw [if_pos hg]
          cases hs : env.extScan t with
          | ok links =>
            exact inv_update c env inv w (WPhase.afterLinks t pk npk il)
              (WPhase.afterExt t pk npk il (links.take 5)) hget rfl (by simp)
              (fun h => hil h) st.keywordCalls (st.extScanCalls + 1)
              st.linkScanCalls st.scanSeeds (fun _ => ⟨rfl, rfl⟩)
          | threw =>
            exact inv_update c env inv w (WPhase.afterLinks t pk npk il)
              (WPhase.afterExt t pk npk il (c.externalLinks.getD [])) hget rfl
              (by simp) (fun h => hil h) st.keywordCalls (st.extScanCalls + 1)
              st.linkScanCalls st.scanSeeds (fun _ => ⟨rfl, rfl⟩)
        · rw [if_neg hg]
          exact inv_update c env inv w (WPhase.afterLinks t pk npk il)
            (WPhase.afterExt t pk npk il (c.externalLinks.getD [])) hget rfl
            (by simp) (fun h => hil h) st.keywordCalls st.extScanCalls
            st.linkScanCalls st.scanSeeds (fun _ => ⟨rfl, rfl⟩)
      | afterExt t pk npk il el =>
        simp only [stepWorker, hget]
        exact inv_stepAfterExt c env inv w t pk npk il el hget
      | done =>
        simpa only [stepWorker, hget] using inv

/-- The invariant is preserved by any schedule. -/
theorem inv_runFrom (c : ArticleConfig) (env : ProviderEnv) {st : BatchState}
    (inv : Inv c env st) (sched : List Event) :
    Inv c env (runFrom c env st sched) := by
  induction sched generalizing st with
  | nil => exact inv
  | cons e rest ih => exact ih (inv_step c env inv e)

/-- Every reachable state of a bulk run satisfies the invariant. -/
theorem inv_bulkRun (c : ArticleConfig) (env : ProviderEnv)
    (sched : List Event) : Inv c env (bulkRun c env sched) :=
  inv_runFrom c env (inv_init c env) sched

/-- No scheduler event touches the batch-scoped research cache or the
brand-fetch counter: both are fixed at `initState`. -/
theorem applyEvent_cache (c : ArticleConfig) (env : ProviderEnv)
    (st : BatchState) (e : Event) :
    (applyEvent c env st e).cachedInternalLinks = st.cachedInternalLinks ∧
    (applyEvent c env st e).brandFetchCalls = st.brandFetchCalls ∧
    (applyEvent c env st e).cachedBrandResearch = st.cachedBrandResearch := by
  cases e with
  | cancel => exact ⟨rfl, rfl, rfl⟩
  | step w =>
    simp only [applyEvent]
    cases hget : st.workers.get? w with
    | none =>
      unfold stepWorker
      rw [hget]
      exact ⟨rfl, rfl, rfl⟩
    | some ph =>
      cases ph <;>
        simp only [stepWorker, hget, stepIdle, stepClaimed, stepAfterKw,
          stepAfterLinks, stepAfterExt] <;>
        (repeat' split) <;> simp_all

/-- A worker step never changes the abort flag. -/
theorem stepWorker_aborted (c : ArticleConfig) (env : ProviderEnv)
    (st : BatchState) (w : Nat) :
    (stepWorker c env st w).aborted = st.aborted := by
  cases hget : st.workers.get? w with
  | none => simp only [stepWorker, hget]
  | some ph =>
    cases ph <;>
      simp only [stepWorker, hget, stepIdle, stepClaimed, stepAfterKw,
        stepAfterLinks, stepAfterExt] <;>
      (repeat' split) <;> simp_all

/-- Once the token is set, one event changes neither the queue nor the
dequeue history, and the token stays set: the loop-head check
`!controller.signal.aborted` guards the only pop. -/
theorem applyEvent_abort_frozen (c : ArticleConfig) (env : ProviderEnv)
    (st : BatchState) (e : Event) (h : st.aborted = true) :
    (applyEvent c env st e).queue = st.queue ∧
    (applyEvent c env st e).popped = st.popped ∧
    (applyEvent c env st e).aborted = true := by
  cases e with
  | cancel => exact ⟨rfl, rfl, rfl⟩
  | step w =>
    simp only [applyEvent]
    cases hget : st.workers.get? w with
    | none =>
      unfold stepWorker
      rw [hget]
      exact ⟨rfl, rfl, h⟩
    | some ph =>
      cases ph <;>
        simp only [stepWorker, hget, stepIdle, stepClaimed, stepAfterKw,
          stepAfterLinks, stepAfterExt] <;>
        (repeat' split) <;> simp_all

/-- Run-level version of `applyEvent_cache`. -/
theorem runFrom_cache (c : ArticleConfig) (env : ProviderEnv)
    (st : BatchState) (sched : List Event) :
    (runFrom c env st sched).cachedInternalLinks = st.cachedInternalLinks ∧
    (runFrom c env st sched).brandFetchCalls = st.brandFetchCalls ∧
    (runFrom c env st sched).cachedBrandResearch = st.cachedBrandResearch := by
  induction sched generalizing st with
  | nil => exact ⟨rfl, rfl, rfl⟩
  | cons e rest ih =>
    obtain ⟨h1, h2, h3⟩ := ih (applyEvent c env st e)
    obtain ⟨g1, g2, g3⟩ := applyEvent_cache c env st e
    exact ⟨h1.trans g1, h2.trans g2, h3.trans g3⟩

/-- Run-level version of `applyEvent_abort_frozen`: after cancellation no
topic is ever dequeued again. -/
theorem runFrom_abort_frozen (c : ArticleConfig) (env : ProviderEnv)
    (st : BatchState) (sched : List Event) (h : st.aborted = true) :
    (runFrom c env st sched).queue = st.queue ∧
    (runFrom c env st sched).popped = st.popped ∧
    (runFrom c env st sched).aborted = true := by
  induction sched generalizing st with
  | nil => exact ⟨rfl, rfl, h⟩
  | cons e rest ih =>
    obtain ⟨g1, g2, g3⟩ := applyEvent_abort_frozen c env st e h
    obtain ⟨h1, h2, h3⟩ := ih (applyEvent c env st e) g3
    exact ⟨h1.trans g1, h2.trans g2, h3⟩

/-- A schedule without a `cancel` event leaves the abort flag untouched. -/
theorem runFrom_no_cancel (c : ArticleConfig) (env : ProviderEnv)
    (st : BatchState) (sched : List Event) (h : Event.cancel ∉ sched) :
    (runFrom c env st sched).aborted = st.aborted := by
  induction sched generalizing st with
  | nil => rfl
  | cons e rest ih =>
    have he : e ≠ Event.cancel := fun hh => h (hh ▸ List.mem_cons_self e rest)
    have hr : Event.cancel ∉ rest := fun hh => h (List.mem_cons_of_mem e hh)
    cases e with
    | cancel => exact absurd rfl he
    | step w =>
      rw [runFrom, List.foldl_cons, ← runFrom]
      rw [ih _ hr]
      exact stepWorker_aborted c env st w

/-- All workers done and no aborts anywhere forces `held = 0`. -/
theorem held_zero {ws : List WPhase} (h : ∀ ph ∈ ws, ph = WPhase.done) :
    held ws = 0 := by
  induction ws with
  | nil => rfl
  | cons a tl ih =>
    have ha := h a (List.mem_cons_self a tl)
    rw [held, ha]
    rw [ih (fun ph hph => h ph (List.mem_cons_of_mem a hph))]
    rfl

/-- The spawned pool is nonempty for a nonempty topic list. -/
theorem numWorkers_pos (c : ArticleConfig) (hne : c.queueTopics ≠ []) :
    0 < numWorkers c := by
  have hlp : 0 < c.queueTopics.length := List.length_pos.mpr hne
  have hlim : 0 < concurrencyLimit c := by
    unfold concurrencyLimit
    split <;> omega
  exact Nat.lt_min.mpr ⟨hlp, hlim⟩

/-- Counting both sides of the accounting invariant: emitted results plus
still-queued topics never exceed the topic count. -/
theorem results_bound (c : ArticleConfig) (env : ProviderEnv)
    {st : BatchState} (inv : Inv c env st) :
    st.results.length + st.queue.length ≤ c.queueTopics.length := by
  have hacc := congrArg Multiset.card inv.acc
  simp only [Multiset.card_add, resultTitles, Multiset.coe_card,
    List.length_map] at hacc
  have hpq := congrArg List.length inv.pq
  simp only [List.length_append] at hpq
  omega

/-- Master lemma for complete runs: in a finished run that was never
cancelled (no `cancel` event, no abort outcome) over nonempty topics
none of which is the empty string, the emitted titles are a permutation
of the topic list. -/
theorem finished_run_perm (c : ArticleConfig) (env : ProviderEnv)
    (sched : List Event) (hne : c.queueTopics ≠ [])
    (hnoe : "" ∉ c.queueTopics) (hnc : Event.cancel ∉ sched)
    (hna : NoAbort env) (hfin : finished (bulkRun c env sched)) :
    ((bulkRun c env sched).results.map GeneratedArticle.title).Perm
      c.queueTopics := by
  set st := bulkRun c env sched with hst
  have inv : Inv c env st := inv_bulkRun c env sched
  have habort : st.aborted = false := by
    have h := runFrom_no_cancel c env (initState c env) sched hnc
    exact h
  have hab0 : st.abandoned = 0 := by
    rw [Multiset.eq_zero_iff_forall_not_mem]
    intro x hx
    exact hna x (inv.abandonedOk x hx)
  have hdr0 : st.dropped = 0 := by
    rw [Multiset.eq_zero_iff_forall_not_mem]
    intro x hx
    have hx' : x ∈ resultTitles st + held st.workers + st.abandoned +
        st.dropped := Multiset.mem_add.mpr (Or.inr hx)
    rw [inv.acc] at hx'
    have hxp : x ∈ st.popped := Multiset.mem_coe.mp hx'
    have hxt : x ∈ c.queueTopics := by
      rw [← inv.pq]
      exact List.mem_append_left _ hxp
    rw [inv.droppedOk x hx] at hxt
    exact hnoe hxt
  have hheld0 : held st.workers = 0 := held_zero hfin
  have hq0 : st.queue = [] := by
    have hlen : 0 < st.workers.length := by
      rw [inv.wlen]
      exact numWorkers_pos c hne
    obtain ⟨ph, hph⟩ := List.exists_mem_of_length_pos hlen
    have hdone : WPhase.done ∈ st.workers := (hfin ph hph) ▸ hph
    exact inv.doneQ habort hnoe hna hdone
  have hpop : st.popped = c.queueTopics := by
    have := inv.pq
    rw [hq0, List.append_nil] at this
    exact this
  have hacc := inv.acc
  rw [hab0, hdr0, hheld0, hpop, add_zero, add_zero, add_zero] at hacc
  exact Multiset.coe_eq_coe.mp hacc

/-- Master lemma for cancelled runs: from the cancel event on, the queue
and the dequeue history are frozen. -/
theorem cancel_freezes (c : ArticleConfig) (env : ProviderEnv)
    (pre post : List Event) :
    (bulkRun c env (pre ++ Event.cancel :: post)).queue =
      (bulkRun c env pre).queue ∧
    (bulkRun c env (pre ++ Event.cancel :: post)).popped =
      (bulkRun c env pre).popped ∧
    (bulkRun c env (pre ++ Event.cancel :: post)).aborted = true := by
  have hsplit : bulkRun c env (pre ++ Event.cancel :: post) =
      runFrom c env (applyEvent c env (bulkRun c env pre) Event.cancel)
        post := by
    unfold bulkRun runFrom
    rw [List.foldl_append, List.foldl_cons]
  rw [hsplit]
  exact runFrom_abort_frozen c env _ post rfl

/-- C1: for every valid BatchConfig whose topic list has N topics (all
non-empty strings), a run of the bulk orchestrator that is never
cancelled (no cancel event, no abort rejection) and runs to completion
emits exactly N BatchResult entries, and a run cancelled mid-run (the
token set while topics were still queued) emits fewer than N entries. -/
theorem runBatch_emits_one_result_per_topic (c : ArticleConfig)
    (env : ProviderEnv) (hne : c.queueTopics ≠ [])
    (hnoe : "" ∉ c.queueTopics) :
    (∀ sched, Event.cancel ∉ sched → NoAbort env →
      finished (bulkRun c env sched) →
      (bulkRun c env sched).results.length = c.queueTopics.length) ∧
    (∀ pre post, (bulkRun c env pre).queue ≠ [] →
      (bulkRun c env (pre ++ Event.cancel :: post)).results.length <
        c.queueTopics.length) := by
  constructor
  · intro sched hnc hna hfin
    have hperm := finished_run_perm c env sched hne hnoe hnc hna hfin
    have := hperm.length_eq
    simpa [List.length_map] using this
  · intro pre post hq
    have hfr := cancel_freezes c env pre post
    have inv := inv_bulkRun c env (pre ++ Event.cancel :: post)
    have hb := results_bound c env inv
    have hqe : (bulkRun c env (pre ++ Event.cancel :: post)).queue ≠ [] := by
      rw [hfr.1]
      exact hq
    have hpos : 0 <
        (bulkRun c env (pre ++ Event.cancel :: post)).queue.length :=
      List.length_pos.mpr hqe
    omega

/-- C1 witness: a complete uncancelled run over 3 topics emits 3 entries;
cancelling before any pop emits fewer than 3. -/
theorem runBatch_emits_one_result_per_topic_witness :
    (bulkRun cfgA okEnv schedFull).results.length =
      cfgA.queueTopics.length ∧
    (bulkRun cfgA okEnv
        ([] ++ Event.cancel :: List.replicate 10 (Event.step 0))
      ).results.length < cfgA.queueTopics.length := by
  have h := runBatch_emits_one_result_per_topic cfgA okEnv (by decide)
    (by decide)
  exact ⟨h.1 schedFull (by decide) (fun _ hh => hh) (by decide),
    h.2 [] (List.replicate 10 (Event.step 0)) (by decide)⟩

/-- C2: queue pops are atomic — over any interleaving the dequeue history
is a prefix of the topic list (no queue position is ever claimed by two
workers), and in a complete uncancelled run the emitted titles are a
permutation of the topic list; with pairwise-distinct topics the result
set has exactly N unique topics. -/
theorem queue_pop_atomic_unique_topics (c : ArticleConfig)
    (env : ProviderEnv) (hne : c.queueTopics ≠ [])
    (hnoe : "" ∉ c.queueTopics) :
    (∀ sched, (bulkRun c env sched).popped ++ (bulkRun c env sched).queue =
      c.queueTopics) ∧
    (∀ sched, Event.cancel ∉ sched → NoAbort env →
      finished (bulkRun c env sched) →
      ((bulkRun c env sched).results.map GeneratedArticle.title).Perm
        c.queueTopics ∧
      (c.queueTopics.Nodup →
        ((bulkRun c env sched).results.map GeneratedArticle.title).Nodup)) := by
  constructor
  · intro sched
    exact (inv_bulkRun c env sched).pq
  · intro sched hnc hna hfin
    have hperm := finished_run_perm c env sched hne hnoe hnc hna hfin
    exact ⟨hperm, fun hnd => hperm.nodup_iff.mpr hnd⟩

/-- C2 witness: concrete interleaving of two workers over 3 distinct
topics — dequeue history is a prefix of the topics, titles a permutation,
all unique. -/
theorem queue_pop_atomic_unique_topics_witness :
    ((bulkRun cfgA okEnv schedFull).popped ++
      (bulkRun cfgA okEnv schedFull).queue = cfgA.queueTopics) ∧
    ((bulkRun cfgA okEnv schedFull).results.map GeneratedArticle.title).Perm
      cfgA.queueTopics ∧
    ((bulkRun cfgA okEnv schedFull).results.map
      GeneratedArticle.title).Nodup := by
  have h := queue_pop_atomic_unique_topics cfgA okEnv (by decide) (by decide)
  have h2 := h.2 schedFull (by decide) (fun _ hh => hh) (by decide)
  exact ⟨h.1 schedFull, h2.1, h2.2 (by decide)⟩

/-- C3 counterexample: the claim says a failed entry's content is the
error message; in the code the content is the message wrapped in an
`Error generating content: ` prefix, so at message `boom` the content is
not `boom`. -/
theorem failed_entry_content_not_bare_message :
    (bulkRun cfgA errEnvB schedFull).results.map
        (fun r => (r.content, r.status)) =
      [("A article", ArticleStatus.completed),
       ("Error generating content: boom", ArticleStatus.failed),
       ("C article", ArticleStatus.completed)] ∧
    ("Error generating content: boom" : String) ≠ "boom" := by
  decide

/-- C3 amended: only the invalid-input error (empty topic list)
propagates out of a bulk run as a thrown error; every per-topic provider
error is caught and converted into a failed BatchResult entry whose
content is the error message prefixed with `Error generating content: `,
and it never prevents sibling topics from completing. -/
theorem provider_errors_converted_not_thrown (c : ArticleConfig)
    (env : ProviderEnv) :
    (∀ sched, c.queueTopics = [] →
      runBatch c env sched =
        Except.error "No topics provided for bulk generation") ∧
    (∀ sched, c.queueTopics ≠ [] →
      runBatch c env sched = Except.ok (bulkRun c env sched)) ∧
    (∀ sched r, r ∈ (bulkRun c env sched).results →
      r.status = ArticleStatus.failed →
      ∃ e, env.gen r.title = GenResult.threw e ∧ e.name ≠ "AbortError" ∧
        r.content = "Error generating content: " ++ e.message) ∧
    (∀ sched, c.queueTopics ≠ [] → "" ∉ c.queueTopics →
      Event.cancel ∉ sched → NoAbort env →
      finished (bulkRun c env sched) →
      ∀ t ∈ c.queueTopics,
        ∃ r ∈ (bulkRun c env sched).results, r.title = t) := by
  refine ⟨?_, ?_, ?_, ?_⟩
  · intro sched h
    have hl : c.queueTopics.length = 0 := by simp [h]
    simp [runBatch, hl]
  · intro sched h
    have hl : ¬(c.queueTopics.length = 0) := by
      simpa [List.length_eq_zero] using h
    simp [runBatch, hl]
  · intro sched r hr hfail
    have hprov := (inv_bulkRun c env sched).prov r hr
    unfold ProvOk at hprov
    cases hgen : env.gen r.title with
    | ok cc ss =>
      rw [hgen] at hprov
      rw [hprov.1] at hfail
      exact absurd hfail (by simp)
    | threw e =>
      rw [hgen] at hprov
      exact ⟨e, rfl, hprov.1, hprov.2.2⟩
  · intro sched h1 h2 h3 h4 h5 t ht
    have hperm := finished_run_perm c env sched h1 h2 h3 h4 h5
    have hmem : t ∈ (bulkRun c env sched).results.map
        GeneratedArticle.title := hperm.mem_iff.mpr ht
    obtain ⟨r, hr, hrt⟩ := List.mem_map.mp hmem
    exact ⟨r, hr, hrt⟩

/-- C3 witness: with a provider that fails on topic `B`, the batch
returns normally, `B` yields a failed entry wrapping the message, and
its siblings complete. -/
theorem provider_errors_converted_not_thrown_witness :
    runBatch cfgA errEnvB schedFull =
      Except.ok (bulkRun cfgA errEnvB schedFull) ∧
    (∃ r ∈ (bulkRun cfgA errEnvB schedFull).results, r.title = "A") ∧
    (∃ r ∈ (bulkRun cfgA errEnvB schedFull).results, r.title = "C") := by
  have h := provider_errors_converted_not_thrown cfgA errEnvB
  have hna : NoAbort errEnvB := by
    intro t hh
    by_cases ht : t = "B" <;>
      simp [errEnvB, okEnv, isAbortGen, ht] at hh
  refine ⟨h.2.1 schedFull (by decide), ?_, ?_⟩
  · exact h.2.2.2 schedFull (by decide) (by decide) (by decide) hna
      (by decide) "A" (by decide)
  · exact h.2.2.2 schedFull (by decide) (by decide) (by decide) hna
      (by decide) "C" (by decide)

/-- C4: a generation call that rejects with an `AbortError` (the
rejection produced by cancellation) yields no BatchResult entry at all
for its topic — in particular the topic never appears as failed. -/
theorem abort_error_yields_no_entry (c : ArticleConfig) (env : ProviderEnv)
    (sched : List Event) (t : String) (hab : isAbortGen (env.gen t)) :
    ∀ r ∈ (bulkRun c env sched).results, r.title ≠ t := by
  intro r hr heq
  have hprov := (inv_bulkRun c env sched).prov r hr
  unfold ProvOk at hprov
  rw [heq] at hprov
  cases hgen : env.gen t with
  | ok cc ss =>
    rw [hgen] at hab
    exact hab
  | threw e =>
    rw [hgen] at hprov hab
    exact hprov.1 hab

/-- C4 witness: in a cancelled run whose in-flight generation of `B`
rejects with `AbortError`, the (nonempty) result list has no entry
titled `B`. -/
theorem abort_error_yields_no_entry_witness :
    0 < (bulkRun cfgA abortEnvB schedAbort).results.length ∧
    ∀ r ∈ (bulkRun cfgA abortEnvB schedAbort).results, r.title ≠ "B" := by
  exact ⟨by decide,
    abort_error_yields_no_entry cfgA abortEnvB schedAbort "B" (by decide)⟩

/-- C5 counterexample: with a batch of 3 topics whose pre-scan fails,
the internal-link scan is issued once by the pre-fetch and then again by
every worker (4 calls in total), contradicting "at most once per batch
regardless of pool size". -/
theorem link_scan_refetched_on_cache_miss :
    3 ≤ cfgA.queueTopics.length ∧
    (bulkRun cfgA scanFailEnv schedFull).linkScanCalls = 4 := by
  decide

/-- C5 amended: the brand-research fetch runs at most once per batch
unconditionally; the internal-link scan runs exactly once per batch
whenever the pre-scan succeeded with a nonempty list (workers then reuse
the cache); if the pre-scan fails or returns no links, each worker falls
back to its own per-topic scan. -/
theorem research_fetches_single_when_cached (c : ArticleConfig)
    (env : ProviderEnv) :
    (∀ sched, (bulkRun c env sched).brandFetchCalls ≤ 1) ∧
    (∀ sched, (bulkRun c env sched).cachedInternalLinks ≠ [] →
      (bulkRun c env sched).linkScanCalls = 1) := by
  constructor
  · intro sched
    have h := (inv_bulkRun c env sched).brandEq
    rw [h]
    unfold preFetchBrand
    (repeat' split) <;> simp
  · intro sched hc
    exact ((inv_bulkRun c env sched).scansOnce hc).1

/-- C5 witness: in a 3-topic batch whose pre-scan succeeds, the link scan
ran exactly once and the brand fetch at most once. -/
theorem research_fetches_single_when_cached_witness :
    (bulkRun cfgA okEnv schedFull).brandFetchCalls ≤ 1 ∧
    (bulkRun cfgA okEnv schedFull).linkScanCalls = 1 := by
  have h := research_fetches_single_when_cached cfgA okEnv
  exact ⟨h.1 schedFull, h.2 schedFull (by decide)⟩

/-- C6: effective concurrency is a fixed, non-user-configurable policy —
the pool holds `min(N, limit)` workers for the batch's whole duration,
where the limit is 5 by default and 1 exactly for the DeepSeek provider
combined with deep research or real-time web data. -/
theorem concurrency_policy_fixed (c : ArticleConfig) (env : ProviderEnv) :
    (∀ sched, (bulkRun c env sched).workers.length =
      min c.queueTopics.length (concurrencyLimit c)) ∧
    (isDeepSeekWebMode c = true → concurrencyLimit c = 1) ∧
    (isDeepSeekWebMode c = false → concurrencyLimit c = 5) ∧
    (isDeepSeekWebMode c = true ↔
      (c.provider = AIProvider.deepseek ∧
        (c.deepResearch = true ∨ c.realTimeData = true))) := by
  refine ⟨?_, ?_, ?_, ?_⟩
  · intro sched
    exact (inv_bulkRun c env sched).wlen
  · intro h
    simp [concurrencyLimit, h]
  · intro h
    simp [concurrencyLimit, h]
  · unfold isDeepSeekWebMode
    simp [Bool.and_eq_true, Bool.or_eq_true, beq_iff_eq]

/-- C6 witness: DeepSeek-plus-deep-research forces a single worker over
3 topics; the Gemini config keeps limit 5. -/
theorem concurrency_policy_fixed_witness :
    (bulkRun cfgDSW okEnv [Event.step 0]).workers.length = 1 ∧
    concurrencyLimit cfgDSW = 1 ∧
    concurrencyLimit cfgA = 5 := by
  have hd := concurrency_policy_fixed cfgDSW okEnv
  have hg := concurrency_policy_fixed cfgA okEnv
  refine ⟨?_, hd.2.1 (by decide), hg.2.2.1 (by decide)⟩
  rw [hd.1 [Event.step 0]]
  decide

/-- C7 counterexample: the claim says that once the token is set no new
provider call is initiated even for the current topic; but after a
worker has claimed topic `A` and the user cancels, the next step still
issues the keyword-analysis call (the count rises from 0 to 1 while the
token is set). -/
theorem provider_call_after_cancel :
    (bulkRun cfgA okEnv [Event.step 0, Event.cancel]).aborted = true ∧
    (bulkRun cfgA okEnv [Event.step 0, Event.cancel]).keywordCalls = 0 ∧
    (bulkRun cfgA okEnv
      [Event.step 0, Event.cancel, Event.step 0]).keywordCalls = 1 := by
  decide

/-- C7 amended: cancellation is checked cooperatively only before each
queue pop: once the token is set, no further topic is ever dequeued (the
queue and the dequeue history are frozen for the rest of the run), while
the pipeline of an already-claimed topic continues and may still initiate
provider calls. -/
theorem cancel_checked_only_at_queue_pop (c : ArticleConfig)
    (env : ProviderEnv) :
    ∀ pre post,
      (bulkRun c env (pre ++ Event.cancel :: post)).queue =
        (bulkRun c env pre).queue ∧
      (bulkRun c env (pre ++ Event.cancel :: post)).popped =
        (bulkRun c env pre).popped ∧
      (bulkRun c env (pre ++ Event.cancel :: post)).aborted = true := by
  intro pre post
  exact cancel_freezes c env pre post

/-- C8 counterexample: the cached list is not reused verbatim — with a
4-link cache every topic is generated from only its 3-link truncation
(strategy reports 3 internal links, not 4). -/
theorem cached_links_truncated_to_three :
    (bulkRun cfgA scan4Env schedFull).cachedInternalLinks.length = 4 ∧
    (bulkRun cfgA scan4Env schedFull).results.map
        (fun r => r.strategy.map Strategy.internalLinksCount) =
      [some 3, some 3, some 3] := by
  decide

/-- C8 amended: whenever the cache is populated, the internal-link list
was fetched exactly once per batch, seeded from only the first topic,
and every completed entry in the batch was produced from the same 3-link
truncation of that cached list (no per-topic rescan). -/
theorem cached_link_list_reused (c : ArticleConfig) (env : ProviderEnv)
    (sched : List Event)
    (hc : (bulkRun c env sched).cachedInternalLinks ≠ []) :
    (bulkRun c env sched).scanSeeds = [seedTopic c] ∧
    (∀ t0 rest, c.queueTopics = t0 :: rest → t0 ≠ "" → seedTopic c = t0) ∧
    (∀ r ∈ (bulkRun c env sched).results, ∀ s, r.strategy = some s →
      s.internalLinksCount =
        ((bulkRun c env sched).cachedInternalLinks.take 3).length) := by
  have inv := inv_bulkRun c env sched
  refine ⟨(inv.scansOnce hc).2, ?_, ?_⟩
  · intro t0 rest hq ht0
    simp [seedTopic, hq, ht0]
  · intro r hr s hs
    exact inv.resIl hc r hr s hs

/-- C8 witness: with a populated cache the only scan seed is the first
topic `A`, and every completed entry used the 3-link truncation. -/
theorem cached_link_list_reused_witness :
    (bulkRun cfgA okEnv schedFull).scanSeeds = [seedTopic cfgA] ∧
    seedTopic cfgA = "A" ∧
    (∀ r ∈ (bulkRun cfgA okEnv schedFull).results, ∀ s,
      r.strategy = some s →
      s.internalLinksCount =
        ((bulkRun cfgA okEnv schedFull).cachedInternalLinks.take 3).length) := by
  have h := cached_link_list_reused cfgA okEnv schedFull (by decide)
  exact ⟨h.1, h.2.1 "A" ["B", "C"] rfl (by decide), h.2.2⟩

/-- C9 counterexample: the claim says a failed per-topic scan leaves an
empty link list; with one preconfigured internal link and failing scans
every completed entry still carries 1 internal link, not 0. -/
theorem link_scan_failure_keeps_config_links :
    cfgIL.internalLinks = some [{ title := "pre", url := "u0" }] ∧
    (bulkRun cfgIL scanFailEnv schedFull).results.map
        (fun r => r.strategy.map Strategy.internalLinksCount) =
      [some 1, some 1, some 1] ∧
    (1 : Nat) ≠ 0 := by
  decide

/-- C9 amended: in the per-topic link stage (autoOptimize on, website
configured) the cache is consulted first — a populated cache means no
provider scan and the 3-link truncation is used; on a cache miss the
provider scan runs, and if it throws, the worker proceeds to the next
stage (never aborting the topic) carrying the preconfigured
`config.internalLinks || []`, which is empty only when none were
configured. -/
theorem link_stage_cache_first_policy (c : ArticleConfig)
    (env : ProviderEnv) (st : BatchState) (w : Nat) (t : String)
    (pk npk : List String)
    (hget : st.workers.get? w = some (WPhase.afterKw t pk npk))
    (hao : c.autoOptimize = true) (hweb : c.websiteUrl ≠ "") :
    (st.cachedInternalLinks ≠ [] →
      stepWorker c env st w = rePark st w
        (WPhase.afterLinks t pk npk (st.cachedInternalLinks.take 3))) ∧
    (st.cachedInternalLinks = [] →
      (usesTavilyScan c = true ∨ usesGeminiScan c = true) →
      env.scan t = ScanOutcome.threw →
      stepWorker c env st w = reParkScanFail c st w t pk npk) := by
  constructor
  · intro hc
    simp only [stepWorker, hget, stepAfterKw]
    rw [if_pos ⟨hao, hweb⟩, if_pos hc]
    rfl
  · intro hc hp hs
    simp only [stepWorker, hget, stepAfterKw]
    rw [if_pos ⟨hao, hweb⟩, if_neg (by simp [hc]), if_pos hp, hs]
    rfl

/-- C9 witness: a concrete mid-run state whose worker 0 is about to run
the link stage of topic `A` with an empty cache and a failing scan: the
step lands in the next stage with the preconfigured link list. -/
theorem link_stage_cache_first_policy_witness :
    stepWorker cfgIL scanFailEnv
        (bulkRun cfgIL scanFailEnv [Event.step 0, Event.step 0]) 0 =
      reParkScanFail cfgIL
        (bulkRun cfgIL scanFailEnv [Event.step 0, Event.step 0]) 0 "A"
        ["k1"] ["k2"] := by
  have h := link_stage_cache_first_policy cfgIL scanFailEnv
    (bulkRun cfgIL scanFailEnv [Event.step 0, Event.step 0]) 0 "A"
    ["k1"] ["k2"] (by decide) (by decide) (by decide)
  exact h.2 (by decide) (by decide) (by decide)

/-- C10: a topic abandoned on an in-flight `AbortError` emits no entry
but its worker's `finally` block still runs — the completed count always
equals emitted entries plus abandoned topics, the active-worker count
always equals the number of topics currently held, and any abandonment
makes the final completed count strictly exceed the number of entries. -/
theorem abort_finally_accounting (c : ArticleConfig) (env : ProviderEnv)
    (sched : List Event) :
    (bulkRun c env sched).completedCount =
      (bulkRun c env sched).results.length +
        Multiset.card (bulkRun c env sched).abandoned ∧
    (bulkRun c env sched).activeTasks =
      (Multiset.card (held (bulkRun c env sched).workers) : Int) ∧
    (0 < Multiset.card (bulkRun c env sched).abandoned →
      (bulkRun c env sched).results.length <
        (bulkRun c env sched).completedCount) := by
  have inv := inv_bulkRun c env sched
  refine ⟨inv.comp, inv.act, ?_⟩
  intro h
  have := inv.comp
  omega

/-- C10 witness: the cancelled run that abandons `B` reports 2 completed
with only 1 emitted entry. -/
theorem abort_finally_accounting_witness :
    (bulkRun cfgA abortEnvB schedAbort).completedCount = 2 ∧
    (bulkRun cfgA abortEnvB schedAbort).results.length = 1 ∧
    (bulkRun cfgA abortEnvB schedAbort).results.length <
      (bulkRun cfgA abortEnvB schedAbort).completedCount := by
  have h := abort_finally_accounting cfgA abortEnvB schedAbort
  exact ⟨by decide, by decide, h.2.2 (by decide)⟩

end VercelScribe
